import Mathlib

/-!
Verification of the pagination / sequencing / freshness core of the `mkweb`
static-site helper, shallowly embedded from `weblib/paginator.py` and
`weblib/document.py`.

Conventions of the embedding:
* Python `int` values that are non-negative by construction (`per_page`,
  `orphans`, list lengths) are `Nat`; indices that may be negative are `Int`.
* Python's `int(ceil(hits / float(per_page)))` is rendered as the exact
  ceiling division `(hits + per_page - 1) / per_page` on `Nat`; float
  rounding of astronomically large sizes is outside the model.
* A raised `IndexError` becomes `Except PageError`.
* `os.stat` outcomes are an input of the model (`StatResult`): success with
  an mtime, `FileNotFoundError`, or any other `OSError` (both error
  constructors are `OSError` subclasses in Python, which matters for the
  `except OSError` clause of `prepare_target`).
* Python's attribute-absence pattern (`next`/`prev` set only conditionally,
  `item.sequence` assigned by `prepare_sequences`) is rendered with `Option`.
-/

namespace Mkweb

/-- Error raised by `Paginator.__getitem__` (`IndexError("page index out of range")`). -/
inductive PageError where
  | indexOutOfRange
  deriving DecidableEq, Repr

/-- `Paginator.__init__` stores the collection and the parameters
(`object_list`, `per_page`, `orphans`, `allow_empty_first_page`). -/
structure Paginator (α : Type) where
  object_list : List α
  per_page : Nat
  orphans : Nat
  allow_empty_first_page : Bool
  deriving DecidableEq, Repr

/-- `self.len` as computed in `Paginator.__init__`:
`1`/`0` for the empty collection depending on `allow_empty_first_page`,
otherwise `ceil(max(1, N - orphans) / per_page)`. -/
def Paginator.len {α : Type} (P : Paginator α) : Nat :=
  if P.object_list.length = 0 then
    if P.allow_empty_first_page then 1 else 0
  else
    let hits := max 1 (P.object_list.length - P.orphans)
    (hits + P.per_page - 1) / P.per_page

/-- `Page.__init__`: the materialized item slice, the 0-based page `number`,
and the back-reference to the paginator. -/
structure Page (α : Type) where
  items : List α
  number : Nat
  paginator : Paginator α
  deriving DecidableEq, Repr

/-- The item slice `self.object_list[bottom:top]` computed by
`Paginator.__getitem__` for an in-range normalized key `k`:
`bottom = k * per_page`, `top = bottom + per_page`, clamped to the
collection length when `top + orphans >= len(object_list)`. -/
def Paginator.pageItemsAt {α : Type} (P : Paginator α) (k : Nat) : List α :=
  let bottom := k * P.per_page
  let top := bottom + P.per_page
  let top := if P.object_list.length ≤ top + P.orphans then P.object_list.length else top
  (P.object_list.drop bottom).take (top - bottom)

/-- `Paginator.__getitem__` for an integer key: Python-style negative-index
normalization (`key += self.len` when `key < 0`), the range check
(`key >= self.len or key < 0` raises `IndexError`), then the
bottom/top/clamp slice and `Page(object_list[bottom:top], key, self)`. -/
def Paginator.pageAt {α : Type} (P : Paginator α) (key : Int) : Except PageError (Page α) :=
  let key := if key < 0 then key + P.len else key
  if (P.len : Int) ≤ key ∨ key < 0 then .error .indexOutOfRange
  else .ok ⟨P.pageItemsAt key.toNat, key.toNat, P⟩

/-- The pages produced by iterating the paginator: `__getitem__` applied to
`0, 1, ..., len-1` (all of which succeed). -/
def Paginator.pages {α : Type} (P : Paginator α) : List (Page α) :=
  (List.range P.len).filterMap fun k : Nat => (P.pageAt k).toOption

/-- `Page.start_index`: `0` when the paginator's collection is empty,
else `per_page * number`. -/
def Page.start_index {α : Type} (pg : Page α) : Nat :=
  if pg.paginator.object_list.length = 0 then 0
  else pg.paginator.per_page * pg.number

/-- `Page.end_index`: the total item count on the last page
(`number == len(paginator) - 1`), else `number * per_page`. -/
def Page.end_index {α : Type} (pg : Page α) : Nat :=
  if pg.number = pg.paginator.len - 1 then pg.paginator.object_list.length
  else pg.number * pg.paginator.per_page

/-- Outcome of an `os.stat` call, an input of the freshness model.
`notFound` is `FileNotFoundError`; `otherOSError` is any other `OSError`
subclass (e.g. `PermissionError`). -/
inductive StatResult where
  | ok (mtime : Int)
  | notFound
  | otherOSError
  deriving DecidableEq, Repr

/-- A modification time as used by `prepare_target`: either a real stat
timestamp or the `float("-inf")` sentinel. -/
inductive ModTime where
  | negInf
  | fin (t : Int)
  deriving DecidableEq, Repr

/-- The strict `>` comparison on modification times: `-inf` is smaller than
every real timestamp and not greater than itself. -/
def ModTime.gt : ModTime → ModTime → Bool
  | .fin s, .fin t => t < s
  | .fin _, .negInf => true
  | .negInf, _ => false

/-- The `try: os.stat(path).st_mtime except OSError: float("-inf")` block of
`StaticDocument.prepare_target`. `except OSError` catches every `OSError`
subclass, so both `notFound` and `otherOSError` become the sentinel. -/
def tryStatMtime : StatResult → ModTime
  | .ok t => .fin t
  | .notFound => .negInf
  | .otherOSError => .negInf

/-- The freshness decision of `StaticDocument.prepare_target`
(`source_time > target_time`), taking the two stat outcomes as inputs. -/
def prepare_target (sourceStat targetStat : StatResult) : Bool :=
  let target_time := tryStatMtime targetStat
  let source_time := tryStatMtime sourceStat
  source_time.gt target_time

/-- Modelled from the spec (section 7, `StatFailure`): the mtime lookup as
claim C9 describes it, where only a not-found stat failure becomes the
`-infinity` sentinel and every other stat error propagates to the caller. -/
def specStatMtime : StatResult → Except Unit ModTime
  | .ok t => .ok (.fin t)
  | .notFound => .ok .negInf
  | .otherOSError => .error ()

/-- `Sequence.__init__` metadata (`weblib/document.py`). `next`/`prev` are
attributes that are only conditionally set in Python; they are `Option`
fields here, `none` meaning the attribute is absent. -/
structure Sequence (α : Type) where
  index : Nat
  index1 : Nat
  revindex1 : Nat
  revindex : Nat
  first : Bool
  last : Bool
  length : Nat
  next : Option α
  prev : Option α
  deriving DecidableEq, Repr

/-- `Sequence(index, sequence)`: positional metadata for the element at
`index` of `sequence`, with `next`/`prev` populated only when the element is
not last / not first. -/
def makeSequence {α : Type} (index : Nat) (sequence : List α) : Sequence α :=
  { index := index
    index1 := index + 1
    revindex1 := sequence.length - index
    revindex := sequence.length - index - 1
    first := index == 0
    last := index == sequence.length - 1
    length := sequence.length
    next := if index == sequence.length - 1 then none else sequence[index + 1]?
    prev := if index == 0 then none else sequence[index - 1]? }

/-- A document as `DocumentList` holds it: its data (standing for the
attribute bag, including `source_path`) together with the `sequence`
attribute assigned by `prepare_sequences` (`none` before any assignment).
The neighbour references inside a `Sequence` carry the neighbour's data,
which breaks the attribute cycle of the Python objects. -/
structure SeqDoc (α : Type) where
  data : α
  sequence : Option (Sequence α) := none
  deriving DecidableEq, Repr

/-- Stable insertion of `x` into `l`: `x` goes in front of the first element
whose key is not smaller than `x`'s, so elements with equal keys keep their
relative order. -/
def insertByKey {α β : Type} [LinearOrder β] (key : α → β) (x : α) : List α → List α
  | [] => [x]
  | y :: ys => if key x ≤ key y then x :: y :: ys else y :: insertByKey key x ys

/-- Stable sort by `key`, modelling Python's stable `list.sort(key=key)`.
A stable sort by a key is unique, so insertion sort is extensionally the
same function as CPython's Timsort. -/
def sortByKey {α β : Type} [LinearOrder β] (key : α → β) : List α → List α
  | [] => []
  | x :: xs => insertByKey key x (sortByKey key xs)

/-- The enumerate loop of `DocumentList.prepare_sequences`, carrying the
running index: `item.sequence = Sequence(idx, self)` for each item. -/
def assignSequences {α : Type} (self : List α) : Nat → List (SeqDoc α) → List (SeqDoc α)
  | _, [] => []
  | idx, d :: ds => { d with sequence := some (makeSequence idx self) } :: assignSequences self (idx + 1) ds

/-- `DocumentList.prepare_sequences`: every element receives the `Sequence`
for its position in the current list. -/
def prepare_sequences {α : Type} (l : List (SeqDoc α)) : List (SeqDoc α) :=
  assignSequences (l.map SeqDoc.data) 0 l

/-- `DocumentList.sort`: stable sort by `key` (the default key being the
document's `source_path`), then `prepare_sequences`. -/
def DocumentList.sort {α β : Type} [LinearOrder β] (key : SeqDoc α → β)
    (l : List (SeqDoc α)) : List (SeqDoc α) :=
  prepare_sequences (sortByKey key l)

/-! ### Helper lemmas about `Paginator` -/

section PaginatorLemmas

variable {α : Type}

lemma Paginator.len_of_ne_nil (P : Paginator α) (hl : P.object_list ≠ []) :
    P.len = (max 1 (P.object_list.length - P.orphans) + P.per_page - 1) / P.per_page := by
  have : P.object_list.length ≠ 0 := by simpa using hl
  simp [Paginator.len, this]

lemma Paginator.len_eq_div_succ (P : Paginator α) (hl : P.object_list ≠ [])
    (hp : 0 < P.per_page) :
    P.len = (max 1 (P.object_list.length - P.orphans) - 1) / P.per_page + 1 := by
  rw [P.len_of_ne_nil hl]
  have h1 : 1 ≤ max 1 (P.object_list.length - P.orphans) := le_max_left _ _
  have : max 1 (P.object_list.length - P.orphans) + P.per_page - 1
      = (max 1 (P.object_list.length - P.orphans) - 1) + P.per_page := by omega
  rw [this, Nat.add_div_right _ hp]

lemma Paginator.len_pos (P : Paginator α) (hl : P.object_list ≠ [])
    (hp : 0 < P.per_page) : 0 < P.len := by
  rw [P.len_eq_div_succ hl hp]
  exact Nat.succ_pos _

lemma Paginator.hits_le_len_mul (P : Paginator α) (hl : P.object_list ≠ [])
    (hp : 0 < P.per_page) :
    max 1 (P.object_list.length - P.orphans) ≤ P.len * P.per_page := by
  rw [P.len_eq_div_succ hl hp, add_one_mul]
  have h1 : 1 ≤ max 1 (P.object_list.length - P.orphans) := le_max_left _ _
  have := Nat.lt_div_mul_add (a := max 1 (P.object_list.length - P.orphans) - 1) hp
  omega

lemma Paginator.len_pred_mul_lt_hits (P : Paginator α) (hl : P.object_list ≠ [])
    (hp : 0 < P.per_page) :
    (P.len - 1) * P.per_page < max 1 (P.object_list.length - P.orphans) := by
  rw [P.len_eq_div_succ hl hp, Nat.add_sub_cancel]
  have h1 : 1 ≤ max 1 (P.object_list.length - P.orphans) := le_max_left _ _
  have := Nat.div_mul_le_self (max 1 (P.object_list.length - P.orphans) - 1) P.per_page
  omega

lemma Paginator.not_last_bound (P : Paginator α) (hl : P.object_list ≠ [])
    (hp : 0 < P.per_page) {k : Nat} (hk : k + 1 < P.len) :
    (k + 1) * P.per_page + P.orphans < P.object_list.length := by
  have hmul : (k + 1) * P.per_page ≤ (P.len - 1) * P.per_page :=
    Nat.mul_le_mul_right _ (by omega)
  have hlt : (k + 1) * P.per_page < max 1 (P.object_list.length - P.orphans) :=
    lt_of_le_of_lt hmul (P.len_pred_mul_lt_hits hl hp)
  have hpos : 0 < (k + 1) * P.per_page := Nat.mul_pos (by omega) hp
  rcases le_or_lt (P.object_list.length - P.orphans) 1 with hsm | hbig
  · rw [max_eq_left hsm] at hlt; omega
  · rw [max_eq_right (by omega)] at hlt; omega

lemma Paginator.pageItemsAt_of_not_last (P : Paginator α) (hl : P.object_list ≠ [])
    (hp : 0 < P.per_page) {k : Nat} (hk : k + 1 < P.len) :
    P.pageItemsAt k = (P.object_list.drop (k * P.per_page)).take P.per_page := by
  have hb := P.not_last_bound hl hp hk
  have hcond : ¬ (P.object_list.length ≤ k * P.per_page + P.per_page + P.orphans) := by
    have : k * P.per_page + P.per_page = (k + 1) * P.per_page := by ring
    omega
  simp only [Paginator.pageItemsAt, if_neg hcond]
  congr 1
  omega

lemma Paginator.length_pageItemsAt_of_not_last (P : Paginator α) (hl : P.object_list ≠ [])
    (hp : 0 < P.per_page) {k : Nat} (hk : k + 1 < P.len) :
    (P.pageItemsAt k).length = P.per_page := by
  rw [P.pageItemsAt_of_not_last hl hp hk]
  have hb := P.not_last_bound hl hp hk
  have : k * P.per_page + P.per_page = (k + 1) * P.per_page := by ring
  simp only [List.length_take, List.length_drop]
  omega

lemma Paginator.pageItemsAt_last (P : Paginator α) (hl : P.object_list ≠ [])
    (hp : 0 < P.per_page) :
    P.pageItemsAt (P.len - 1) = P.object_list.drop ((P.len - 1) * P.per_page) := by
  have hits_le := P.hits_le_len_mul hl hp
  have hlt := P.len_pred_mul_lt_hits hl hp
  have hlen : 1 ≤ P.len := P.len_pos hl hp
  have hmul : (P.len - 1) * P.per_page + P.per_page = P.len * P.per_page := by
    calc (P.len - 1) * P.per_page + P.per_page
        = (P.len - 1 + 1) * P.per_page := by rw [add_one_mul]
      _ = P.len * P.per_page := by rw [Nat.sub_add_cancel hlen]
  have hNo : P.object_list.length - P.orphans
      ≤ max 1 (P.object_list.length - P.orphans) := le_max_right _ _
  have hcond : P.object_list.length ≤ (P.len - 1) * P.per_page + P.per_page + P.orphans := by
    omega
  simp only [Paginator.pageItemsAt, if_pos hcond]
  rw [← List.length_drop]
  exact List.take_length _

lemma Paginator.pageAt_natCast (P : Paginator α) {k : Nat} (hk : k < P.len) :
    P.pageAt (k : Int) = .ok ⟨P.pageItemsAt k, k, P⟩ := by
  simp only [Paginator.pageAt]
  rw [if_neg (by omega : ¬ ((k : Int) < 0))]
  rw [if_neg (by omega : ¬ ((P.len : Int) ≤ (k : Int) ∨ (k : Int) < 0))]
  simp

lemma Paginator.pages_eq_map (P : Paginator α) :
    P.pages = (List.range P.len).map fun k => Page.mk (P.pageItemsAt k) k P := by
  unfold Paginator.pages
  have main : ∀ ns : List Nat, (∀ k ∈ ns, k < P.len) →
      List.filterMap (fun k : Nat => (P.pageAt k).toOption) ns
        = ns.map fun k => Page.mk (P.pageItemsAt k) k P := by
    intro ns
    induction ns with
    | nil => simp
    | cons a as ih =>
        intro hmem
        rw [List.filterMap_cons, P.pageAt_natCast (hmem a (by simp))]
        rw [ih fun k hk => hmem k (by simp [hk])]
        rfl
  exact main _ fun k hk => List.mem_range.mp hk

lemma flatten_take_chunks (l : List α) (p : Nat) (L : Nat) :
    ((List.range L).map fun k => (l.drop (k * p)).take p).flatten = l.take (L * p) := by
  induction L with
  | zero => simp
  | succ L ih =>
      rw [List.range_succ, List.map_append, List.flatten_append, ih]
      rw [Nat.succ_mul, List.take_add]
      simp

lemma Paginator.pageItems_flatten (P : Paginator α) (hl : P.object_list ≠ [])
    (hp : 0 < P.per_page) :
    ((List.range P.len).map P.pageItemsAt).flatten = P.object_list := by
  obtain ⟨L, hL⟩ : ∃ L, P.len = L + 1 := ⟨P.len - 1, by have := P.len_pos hl hp; omega⟩
  rw [hL, List.range_succ, List.map_append, List.flatten_append]
  have hmap : (List.range L).map P.pageItemsAt
      = (List.range L).map fun k => (P.object_list.drop (k * P.per_page)).take P.per_page := by
    apply List.map_congr_left
    intro k hk
    exact P.pageItemsAt_of_not_last hl hp (by have := List.mem_range.mp hk; omega)
  rw [hmap, flatten_take_chunks]
  have hlast : P.pageItemsAt L = P.object_list.drop (L * P.per_page) := by
    have h := P.pageItemsAt_last hl hp
    rw [hL] at h
    simpa using h
  simp only [List.map_cons, List.map_nil, List.flatten_cons, List.flatten_nil,
    List.append_nil, hlast]
  exact List.take_append_drop _ _

lemma Paginator.pages_items_flatten (P : Paginator α) (hl : P.object_list ≠ [])
    (hp : 0 < P.per_page) :
    (P.pages.map Page.items).flatten = P.object_list := by
  rw [P.pages_eq_map, List.map_map]
  exact P.pageItems_flatten hl hp

end PaginatorLemmas

/-! ### Helper lemmas about `sortByKey` and `prepare_sequences` -/

section SortLemmas

variable {α β : Type} [LinearOrder β]

lemma insertByKey_const (c : β) (x : α) (l : List α) :
    insertByKey (fun _ => c) x l = x :: l := by
  cases l with
  | nil => rfl
  | cons y ys => simp [insertByKey]

lemma sortByKey_const (c : β) (l : List α) :
    sortByKey (fun _ : α => c) l = l := by
  induction l with
  | nil => rfl
  | cons x xs ih => rw [sortByKey, ih, insertByKey_const]

lemma insertByKey_perm (key : α → β) (x : α) (l : List α) :
    List.Perm (insertByKey key x l) (x :: l) := by
  induction l with
  | nil => exact List.Perm.refl _
  | cons y ys ih =>
      by_cases h : key x ≤ key y
      · rw [insertByKey, if_pos h]
      · rw [insertByKey, if_neg h]
        exact (ih.cons y).trans (List.Perm.swap x y ys)

lemma sortByKey_perm (key : α → β) (l : List α) :
    List.Perm (sortByKey key l) l := by
  induction l with
  | nil => exact List.Perm.refl _
  | cons x xs ih => exact (insertByKey_perm key x _).trans (ih.cons x)

lemma mem_insertByKey (key : α → β) (x a : α) (l : List α) :
    a ∈ insertByKey key x l ↔ a = x ∨ a ∈ l := by
  rw [(insertByKey_perm key x l).mem_iff, List.mem_cons]

lemma pairwise_insertByKey (key : α → β) (x : α) (l : List α)
    (hl : l.Pairwise fun a b => key a ≤ key b) :
    (insertByKey key x l).Pairwise fun a b => key a ≤ key b := by
  induction l with
  | nil => simp [insertByKey]
  | cons y ys ih =>
      rw [List.pairwise_cons] at hl
      obtain ⟨hy, hys⟩ := hl
      by_cases h : key x ≤ key y
      · rw [insertByKey, if_pos h, List.pairwise_cons]
        refine ⟨?_, List.pairwise_cons.mpr ⟨hy, hys⟩⟩
        intro z hz
        rcases List.mem_cons.mp hz with rfl | hz
        · exact h
        · exact h.trans (hy z hz)
      · rw [insertByKey, if_neg h, List.pairwise_cons]
        refine ⟨?_, ih hys⟩
        intro z hz
        rcases (mem_insertByKey key x z ys).mp hz with rfl | hz
        · exact (lt_of_not_le h).le
        · exact hy z hz

lemma sortByKey_pairwise (key : α → β) (l : List α) :
    (sortByKey key l).Pairwise fun a b => key a ≤ key b := by
  induction l with
  | nil => simp [sortByKey]
  | cons x xs ih => exact pairwise_insertByKey key x _ ih

lemma filter_insertByKey_of_eq (key : α → β) (b : β) (x : α) (l : List α)
    (hl : l.Pairwise fun a c => key a ≤ key c) (hx : key x = b) :
    (insertByKey key x l).filter (fun a => decide (key a = b))
      = x :: l.filter (fun a => decide (key a = b)) := by
  induction l with
  | nil => simp [insertByKey, hx]
  | cons y ys ih =>
      rw [List.pairwise_cons] at hl
      by_cases h : key x ≤ key y
      · rw [insertByKey, if_pos h, List.filter_cons, List.filter_cons]
        simp [hx]
      · have hyb : ¬ (key y = b) := by
          intro hyb
          exact h (by rw [hx, hyb])
        rw [insertByKey, if_neg h, List.filter_cons, List.filter_cons]
        simp only [hyb, decide_eq_true_eq, if_false]
        exact ih hl.2

lemma filter_insertByKey_of_ne (key : α → β) (b : β) (x : α) (l : List α)
    (hx : ¬ (key x = b)) :
    (insertByKey key x l).filter (fun a => decide (key a = b))
      = l.filter (fun a => decide (key a = b)) := by
  induction l with
  | nil => simp [insertByKey, hx]
  | cons y ys ih =>
      by_cases h : key x ≤ key y
      · rw [insertByKey, if_pos h, List.filter_cons, List.filter_cons]
        simp [hx]
      · rw [insertByKey, if_neg h, List.filter_cons, List.filter_cons, ih]

lemma sortByKey_filter_key (key : α → β) (b : β) (l : List α) :
    (sortByKey key l).filter (fun a => decide (key a = b))
      = l.filter (fun a => decide (key a = b)) := by
  induction l with
  | nil => rfl
  | cons x xs ih =>
      rw [sortByKey]
      by_cases hx : key x = b
      · rw [filter_insertByKey_of_eq key b x _ (sortByKey_pairwise key xs) hx, ih,
          List.filter_cons]
        simp [hx]
      · rw [filter_insertByKey_of_ne key b x _ hx, ih, List.filter_cons]
        simp [hx]

lemma length_assignSequences (s : List α) (ds : List (SeqDoc α)) :
    ∀ idx, (assignSequences s idx ds).length = ds.length := by
  induction ds with
  | nil => intro idx; rfl
  | cons d ds ih => intro idx; simp [assignSequences, ih]

lemma map_data_assignSequences (s : List α) (ds : List (SeqDoc α)) :
    ∀ idx, (assignSequences s idx ds).map SeqDoc.data = ds.map SeqDoc.data := by
  induction ds with
  | nil => intro idx; rfl
  | cons d ds ih => intro idx; simp [assignSequences, ih]

lemma get_assignSequences (s : List α) (ds : List (SeqDoc α)) :
    ∀ (idx i : Nat) (h : i < (assignSequences s idx ds).length),
      ((assignSequences s idx ds).get ⟨i, h⟩).sequence
        = some (makeSequence (idx + i) s) := by
  induction ds with
  | nil => intro idx i h; simp [assignSequences] at h
  | cons d ds ih =>
      intro idx i h
      cases i with
      | zero => simp [assignSequences]
      | succ i =>
          have harr : idx + 1 + i = idx + (i + 1) := by omega
          simp only [assignSequences, List.get_cons_succ]
          rw [ih (idx + 1) i _, harr]

lemma length_prepare_sequences (l : List (SeqDoc α)) :
    (prepare_sequences l).length = l.length :=
  length_assignSequences _ _ 0

lemma map_data_prepare_sequences (l : List (SeqDoc α)) :
    (prepare_sequences l).map SeqDoc.data = l.map SeqDoc.data :=
  map_data_assignSequences _ _ 0

lemma sequence_get_prepare_sequences (l : List (SeqDoc α)) (i : Nat)
    (h : i < (prepare_sequences l).length) :
    ((prepare_sequences l).get ⟨i, h⟩).sequence
      = some (makeSequence i (l.map SeqDoc.data)) := by
  have := get_assignSequences (l.map SeqDoc.data) l 0 i h
  simpa using this

end SortLemmas

/-! ### Claims -/

/-- C1: for every collection, `per_page > 0`, `orphans ≥ 0` (inherent in `Nat`)
and every index key in range after normalization, `pageAt` computes
`bottom = key * per_page`, `top = bottom + per_page`, clamps `top` to the total
item count when `top + orphans ≥ totalItems`, and returns a `Page` whose items
are `collection[bottom:top]` and whose number is the normalized key; in
particular `Paginator(range(10), per_page=5, orphans=2)` has
`pageAt(0) = [0,1,2,3,4]` and `pageAt(1) = [5,6,7,8,9]`. -/
theorem C1_pageAt_algorithm {α : Type} (l : List α) (p o : Nat) (aefp : Bool) (k : Nat)
    (hp : 0 < p) (hk : k < (Paginator.mk l p o aefp).len) :
    ((Paginator.mk l p o aefp).pageAt (k : Int) = Except.ok
      { items := (l.drop (k * p)).take
          ((if l.length ≤ k * p + p + o then l.length else k * p + p) - k * p)
        number := k
        paginator := Paginator.mk l p o aefp })
    ∧ ((Paginator.mk (List.range 10) 5 2 true).pageAt 0).toOption.map Page.items
        = some [0, 1, 2, 3, 4]
    ∧ ((Paginator.mk (List.range 10) 5 2 true).pageAt 1).toOption.map Page.items
        = some [5, 6, 7, 8, 9] := by
  refine ⟨?_, by rfl, by rfl⟩
  rw [Paginator.pageAt_natCast _ hk]
  rfl

/-- Witness for C1 at collection `[0]`, `per_page = 1`, `orphans = 0`, key 0. -/
theorem C1_pageAt_algorithm_witness :
    (0 < 1 ∧ 0 < (Paginator.mk ([0] : List Nat) 1 0 true).len)
    ∧ (Paginator.mk ([0] : List Nat) 1 0 true).pageAt (0 : Int) = Except.ok
        { items := (([0] : List Nat).drop (0 * 1)).take
            ((if ([0] : List Nat).length ≤ 0 * 1 + 1 + 0 then ([0] : List Nat).length
              else 0 * 1 + 1) - 0 * 1)
          number := 0
          paginator := Paginator.mk ([0] : List Nat) 1 0 true } :=
  ⟨⟨by decide, by decide⟩,
    (C1_pageAt_algorithm ([0] : List Nat) 1 0 true 0 (by decide) (by decide)).1⟩

/-- C2: the page count is `1` for an empty collection with
`allow_empty_first_page`, `0` for an empty collection without it, and
`ceil(max(1, N - orphans) / per_page)` otherwise — stated both as the exact
integer formula and through the ceiling characterization
`hits ≤ len * per_page` and `(len - 1) * per_page < hits`; in particular
`Paginator([], per_page=5, allow_empty_first_page=True)` has one page and its
page 0 is empty. -/
theorem C2_len_formula {α : Type} (l : List α) (p o : Nat) (aefp : Bool) (hp : 0 < p) :
    ((Paginator.mk l p o aefp).len
      = if l.length = 0 then (if aefp then 1 else 0)
        else (max 1 (l.length - o) + p - 1) / p)
    ∧ (l.length ≠ 0 →
        max 1 (l.length - o) ≤ (Paginator.mk l p o aefp).len * p
        ∧ ((Paginator.mk l p o aefp).len - 1) * p < max 1 (l.length - o))
    ∧ (Paginator.mk ([] : List Nat) 5 0 true).len = 1
    ∧ (Paginator.mk ([] : List Nat) 5 0 true).pageAt 0
        = Except.ok { items := [], number := 0, paginator := Paginator.mk [] 5 0 true } := by
  refine ⟨?_, ?_, by decide, by rfl⟩
  · by_cases h : l.length = 0 <;> simp [Paginator.len, h]
  · intro hne
    have hl : l ≠ [] := by
      intro h
      exact hne (by simp [h])
    exact ⟨(Paginator.mk l p o aefp).hits_le_len_mul hl hp,
      (Paginator.mk l p o aefp).len_pred_mul_lt_hits hl hp⟩

/-- Witness for C2 at the empty collection with `per_page = 5`. -/
theorem C2_len_formula_witness :
    0 < 5 ∧ (Paginator.mk ([] : List Nat) 5 0 true).len = 1
    ∧ (Paginator.mk ([] : List Nat) 5 0 true).pageAt 0
        = Except.ok { items := [], number := 0, paginator := Paginator.mk [] 5 0 true } := by
  have h := C2_len_formula ([] : List Nat) 5 0 true (by decide)
  exact ⟨by decide, h.2.2.1, h.2.2.2⟩

/-- C3: `prepare_target` returns `needsMake = (sourceModTime > targetModTime)`,
strict greater-than, with a missing file's modification time being the
`-infinity` sentinel: equal timestamps give `false`, a missing target with an
existing source gives `true`, a missing source with an existing target gives
`false`, and the lookup for a missing file yields the sentinel rather than
raising. -/
theorem C3_prepare_target_strict :
    (∀ s t : StatResult, prepare_target s t = (tryStatMtime s).gt (tryStatMtime t))
    ∧ (∀ s t : Int, prepare_target (.ok s) (.ok t) = decide (t < s))
    ∧ (∀ t : Int, prepare_target (.ok t) (.ok t) = false)
    ∧ (∀ s : Int, prepare_target (.ok s) .notFound = true)
    ∧ (∀ t : Int, prepare_target .notFound (.ok t) = false)
    ∧ tryStatMtime .notFound = ModTime.negInf := by
  refine ⟨fun s t => rfl, fun s t => rfl, fun t => ?_, fun s => rfl, fun t => rfl, rfl⟩
  simp [prepare_target, tryStatMtime, ModTime.gt]

/-- C4: `pageAt` first normalizes negative keys Python-style
(`key += len` when `key < 0`) and then fails with `IndexOutOfRange` exactly
when the normalized key is `< 0` or `≥ len`; consequently
`pageAt(-1) = pageAt(len - 1)` whenever `len > 0`, and on an empty collection
with `allow_empty_first_page = false` every `pageAt` call fails. -/
theorem C4_pageAt_normalization {α : Type} (l : List α) (p o : Nat) (aefp : Bool)
    (key : Int) (hp : 0 < p) :
    ((Paginator.mk l p o aefp).pageAt key = Except.error PageError.indexOutOfRange
      ↔ ((if key < 0 then key + (Paginator.mk l p o aefp).len else key) < 0
         ∨ ((Paginator.mk l p o aefp).len : Int)
             ≤ (if key < 0 then key + (Paginator.mk l p o aefp).len else key)))
    ∧ (0 < (Paginator.mk l p o aefp).len →
        (Paginator.mk l p o aefp).pageAt (-1)
          = (Paginator.mk l p o aefp).pageAt (((Paginator.mk l p o aefp).len : Int) - 1))
    ∧ (l.length = 0 → aefp = false →
        (Paginator.mk l p o aefp).pageAt key = Except.error PageError.indexOutOfRange) := by
  set P := Paginator.mk l p o aefp with hP
  refine ⟨?_, ?_, ?_⟩
  · simp only [Paginator.pageAt]
    split
    · split
      · next hg => exact iff_of_true rfl hg.symm
      · next hg => exact iff_of_false (by simp) fun hd => hg hd.symm
    · split
      · next hg => exact iff_of_true rfl hg.symm
      · next hg => exact iff_of_false (by simp) fun hd => hg hd.symm
  · intro hlen
    have h1 : (-1 : Int) < 0 := by omega
    have h2 : ¬ ((P.len : Int) - 1 < 0) := by omega
    simp only [Paginator.pageAt]
    rw [if_pos h1, if_neg h2]
    rw [show (-1 : Int) + (P.len : Int) = (P.len : Int) - 1 from by ring]
  · intro hnil haefp
    have hlen : P.len = 0 := by
      simp [Paginator.len, hP, hnil, haefp]
    have hcond : ((P.len : Int) ≤ (if key < 0 then key + (P.len : Int) else key)
        ∨ (if key < 0 then key + (P.len : Int) else key) < 0) := by
      rw [hlen]
      split <;> omega
    simp only [Paginator.pageAt]
    rw [if_pos hcond]

/-- Witness for C4 at collection `[7]`, `per_page = 1`, key `-1`. -/
theorem C4_pageAt_normalization_witness :
    0 < 1
    ∧ (Paginator.mk ([7] : List Nat) 1 0 true).pageAt (-1)
        = (Paginator.mk ([7] : List Nat) 1 0 true).pageAt
            (((Paginator.mk ([7] : List Nat) 1 0 true).len : Int) - 1) := by
  have h := C4_pageAt_normalization ([7] : List Nat) 1 0 true (-1) (by decide)
  exact ⟨by decide, h.2.1 (by decide)⟩

/-- C6: `makeSequence(index, collection)` for `0 ≤ index < length` yields
`index1 = index+1`, `revindex1 = length - index`, `revindex = revindex1 - 1`,
`first ↔ index = 0`, `last ↔ index = length-1`, `length = length(collection)`;
`next` is `collection[index+1]` exactly when not last and absent (`none`)
otherwise, symmetrically for `prev`; for a 3-element collection, element 0 has
`first` and no `prev`, element 2 has `last` and no `next`, element 1 has
`index1 = 2`. -/
theorem C6_makeSequence_fields {α : Type} (collection : List α) (index : Nat)
    (h : index < collection.length) :
    ((makeSequence index collection).index1 = index + 1
      ∧ (makeSequence index collection).revindex1 = collection.length - index
      ∧ (makeSequence index collection).revindex = collection.length - index - 1
      ∧ ((makeSequence index collection).first = true ↔ index = 0)
      ∧ ((makeSequence index collection).last = true ↔ index = collection.length - 1)
      ∧ (makeSequence index collection).length = collection.length)
    ∧ (∀ _ : index ≠ collection.length - 1,
        (makeSequence index collection).next = some (collection.get ⟨index + 1, by omega⟩))
    ∧ (index = collection.length - 1 → (makeSequence index collection).next = none)
    ∧ (∀ _ : index ≠ 0,
        (makeSequence index collection).prev = some (collection.get ⟨index - 1, by omega⟩))
    ∧ (index = 0 → (makeSequence index collection).prev = none)
    ∧ ((makeSequence 0 ([10, 20, 30] : List Nat)).first = true
       ∧ (makeSequence 0 ([10, 20, 30] : List Nat)).prev = none
       ∧ (makeSequence 2 ([10, 20, 30] : List Nat)).last = true
       ∧ (makeSequence 2 ([10, 20, 30] : List Nat)).next = none
       ∧ (makeSequence 1 ([10, 20, 30] : List Nat)).index1 = 2) := by
  refine ⟨⟨rfl, rfl, rfl, by simp [makeSequence], by simp [makeSequence], rfl⟩,
    ?_, ?_, ?_, ?_, by decide⟩
  · intro hne
    have hlt : index + 1 < collection.length := by omega
    simp [makeSequence, hne, List.getElem?_eq_getElem hlt]
  · intro heq
    simp [makeSequence, heq]
  · intro hne
    have hlt : index - 1 < collection.length := by omega
    simp [makeSequence, hne, List.getElem?_eq_getElem hlt]
  · intro heq
    simp [makeSequence, heq]

/-- Witness for C6 at `[10, 20, 30]`, index 1. -/
theorem C6_makeSequence_fields_witness :
    1 < ([10, 20, 30] : List Nat).length
    ∧ (makeSequence 1 ([10, 20, 30] : List Nat)).index1 = 2
    ∧ (makeSequence 1 ([10, 20, 30] : List Nat)).next = some 30
    ∧ (makeSequence 1 ([10, 20, 30] : List Nat)).prev = some 10 := by
  have h := C6_makeSequence_fields ([10, 20, 30] : List Nat) 1 (by decide)
  refine ⟨by decide, h.1.1, ?_, ?_⟩
  · have := h.2.1 (by decide)
    simpa using this
  · have := h.2.2.2.1 (by decide)
    simpa using this

/-- C7: for every `Page` produced by a `Paginator`, `end_index` returns the
total item count on the last page (`number = len - 1`) and `number * per_page`
otherwise (literally `number`, not `number + 1`), and `start_index` returns 0
for an empty collection and `per_page * number` otherwise. -/
theorem C7_page_start_end_index {α : Type} (P : Paginator α) (key : Int) (pg : Page α)
    (h : P.pageAt key = Except.ok pg) :
    (pg.number = P.len - 1 → pg.end_index = P.object_list.length)
    ∧ (pg.number ≠ P.len - 1 → pg.end_index = pg.number * P.per_page)
    ∧ (P.object_list.length = 0 → pg.start_index = 0)
    ∧ (P.object_list.length ≠ 0 → pg.start_index = P.per_page * pg.number) := by
  have hpag : pg.paginator = P := by
    simp only [Paginator.pageAt] at h
    split at h <;> split at h <;>
      first
        | (injection h with h2; rw [← h2])
        | injection h
  refine ⟨?_, ?_, ?_, ?_⟩ <;> intro hc <;>
    simp [Page.end_index, Page.start_index, hpag, hc]

/-- Witness for C7 at the one-page paginator over `[5]`. -/
theorem C7_page_start_end_index_witness :
    ((Paginator.mk ([5] : List Nat) 1 0 true).pageAt 0 =
      Except.ok { items := [5], number := 0, paginator := Paginator.mk ([5] : List Nat) 1 0 true })
    ∧ (Page.mk ([5] : List Nat) 0 (Paginator.mk ([5] : List Nat) 1 0 true)).end_index = 1
    ∧ (Page.mk ([5] : List Nat) 0 (Paginator.mk ([5] : List Nat) 1 0 true)).start_index = 0 := by
  have h : (Paginator.mk ([5] : List Nat) 1 0 true).pageAt 0 =
      Except.ok { items := [5], number := 0, paginator := Paginator.mk ([5] : List Nat) 1 0 true } := rfl
  have hc := C7_page_start_end_index (Paginator.mk ([5] : List Nat) 1 0 true) 0 _ h
  exact ⟨h, hc.1 (by decide), by simpa using hc.2.2.2 (by decide)⟩

/-- C9 counterexample: a stat failure that is not a missing-file error (an
`OSError` such as `PermissionError`) is silently converted to the `-infinity`
sentinel by the `except OSError` clause of `prepare_target` — the sentinel is
not reserved for not-found, and nothing propagates, contrary to the claim
(shown against the spec-modelled propagating lookup `specStatMtime`). -/
theorem C9_stat_error_counterexample :
    tryStatMtime .otherOSError = ModTime.negInf
    ∧ prepare_target .otherOSError (.ok 0) = false
    ∧ specStatMtime .otherOSError = Except.error () := by
  exact ⟨rfl, rfl, rfl⟩

/-- C9 amended: every `OSError`-kind stat failure, not only not-found, is
converted to the `-infinity` sentinel, and `prepare_target` never propagates a
stat error: a non-not-found failure yields exactly the same freshness decision
as a missing file. -/
theorem C9_stat_errors_absorbed :
    (∀ t : Int, tryStatMtime (.ok t) = ModTime.fin t)
    ∧ tryStatMtime .notFound = ModTime.negInf
    ∧ tryStatMtime .otherOSError = ModTime.negInf
    ∧ (∀ t : StatResult, prepare_target .otherOSError t = prepare_target .notFound t)
    ∧ (∀ s : StatResult, prepare_target s .otherOSError = prepare_target s .notFound) := by
  exact ⟨fun t => rfl, rfl, rfl, fun t => rfl, fun s => rfl⟩

/-- C5: for every non-empty collection and `per_page > 0`, with `orphans = 0`
the lengths of the pages produced by iterating the paginator
(pages 0 through `len - 1`) sum to the collection size. -/
theorem C5_page_sizes_sum {α : Type} (l : List α) (p : Nat) (aefp : Bool)
    (hl : l ≠ []) (hp : 0 < p) :
    ((Paginator.mk l p 0 aefp).pages.map fun pg => pg.items.length).sum = l.length := by
  have hflat := (Paginator.mk l p 0 aefp).pages_items_flatten hl hp
  calc ((Paginator.mk l p 0 aefp).pages.map fun pg => pg.items.length).sum
      = (((Paginator.mk l p 0 aefp).pages.map Page.items).map List.length).sum := by
        rw [List.map_map]
        rfl
    _ = ((Paginator.mk l p 0 aefp).pages.map Page.items).flatten.length :=
        (List.length_flatten _).symm
    _ = l.length := by rw [hflat]

/-- Witness for C5 at `[0, 1, 2]` with `per_page = 2`. -/
theorem C5_page_sizes_sum_witness :
    (([0, 1, 2] : List Nat) ≠ [] ∧ 0 < 2)
    ∧ ((Paginator.mk ([0, 1, 2] : List Nat) 2 0 true).pages.map fun pg => pg.items.length).sum
        = ([0, 1, 2] : List Nat).length :=
  ⟨⟨by decide, by decide⟩,
    C5_page_sizes_sum ([0, 1, 2] : List Nat) 2 true (by decide) (by decide)⟩

/-- C10: for every non-empty collection, `per_page > 0` and any `orphans`,
orphan absorption only ever affects the final page: every page except the
last has exactly `per_page` items, and concatenating `pageAt(0)` through
`pageAt(len - 1)` in order yields exactly the original collection. -/
theorem C10_orphans_only_affect_last_page {α : Type} (l : List α) (p o : Nat) (aefp : Bool)
    (hl : l ≠ []) (hp : 0 < p) :
    (∀ pg ∈ (Paginator.mk l p o aefp).pages,
        pg.number + 1 < (Paginator.mk l p o aefp).len → pg.items.length = p)
    ∧ ((Paginator.mk l p o aefp).pages.map Page.items).flatten = l := by
  refine ⟨?_, (Paginator.mk l p o aefp).pages_items_flatten hl hp⟩
  intro pg hpg hlast
  rw [Paginator.pages_eq_map] at hpg
  obtain ⟨k, hk, rfl⟩ := List.mem_map.mp hpg
  exact (Paginator.mk l p o aefp).length_pageItemsAt_of_not_last hl hp hlast

/-- Witness for C10 at `range(10)`, `per_page = 5`, `orphans = 2`. -/
theorem C10_orphans_only_affect_last_page_witness :
    ((List.range 10 : List Nat) ≠ [] ∧ 0 < 5)
    ∧ (∀ pg ∈ (Paginator.mk (List.range 10) 5 2 true).pages,
        pg.number + 1 < (Paginator.mk (List.range 10) 5 2 true).len → pg.items.length = 5)
    ∧ ((Paginator.mk (List.range 10) 5 2 true).pages.map Page.items).flatten
        = List.range 10 := by
  have h := C10_orphans_only_affect_last_page (List.range 10) 5 2 true
    (by decide) (by decide)
  exact ⟨⟨by decide, by decide⟩, h.1, h.2⟩

/-- C8: `DocumentList.sort` performs a stable sort by the given key (the
result is a permutation sorted by the key, the sublist of any fixed key value
is unchanged, and under a constant key the whole list is unchanged) and
afterwards reassigns a fresh `Sequence` to every element: the element at each
position `idx` carries exactly the `Sequence` computed for `(idx, sorted
list)`, any previously assigned `Sequence` being discarded. -/
theorem C8_sort_stable_and_sequences {α β : Type} [LinearOrder β]
    (key : SeqDoc α → β) (l : List (SeqDoc α)) (c b : β) :
    (sortByKey (fun _ : SeqDoc α => c) l = l)
    ∧ List.Perm (sortByKey key l) l
    ∧ (sortByKey key l).Pairwise (fun d e => key d ≤ key e)
    ∧ ((sortByKey key l).filter (fun d => decide (key d = b))
        = l.filter (fun d => decide (key d = b)))
    ∧ (DocumentList.sort key l).length = l.length
    ∧ ((DocumentList.sort key l).map SeqDoc.data = (sortByKey key l).map SeqDoc.data)
    ∧ (∀ (i : Nat) (h : i < (DocumentList.sort key l).length),
        ((DocumentList.sort key l).get ⟨i, h⟩).sequence
          = some (makeSequence i ((DocumentList.sort key l).map SeqDoc.data))) := by
  refine ⟨sortByKey_const c l, sortByKey_perm key l, sortByKey_pairwise key l,
    sortByKey_filter_key key b l, ?_, map_data_prepare_sequences _, ?_⟩
  · exact (length_prepare_sequences _).trans (sortByKey_perm key l).length_eq
  · intro i h
    simp only [DocumentList.sort] at h ⊢
    rw [map_data_prepare_sequences]
    exact sequence_get_prepare_sequences (sortByKey key l) i h

/-- Witness for C8 on a two-document list sorted by its data. -/
theorem C8_sort_stable_and_sequences_witness :
    sortByKey (fun _ : SeqDoc Nat => (0 : Nat)) [⟨2, none⟩, ⟨1, none⟩]
        = [⟨2, none⟩, ⟨1, none⟩]
    ∧ (0 : Nat) < (DocumentList.sort (fun d : SeqDoc Nat => d.data)
        [⟨2, none⟩, ⟨1, none⟩]).length
    ∧ ((DocumentList.sort (fun d : SeqDoc Nat => d.data)
          [⟨2, none⟩, ⟨1, none⟩]).get ⟨0, by decide⟩).sequence
        = some (makeSequence 0 ([1, 2] : List Nat)) := by
  have h := C8_sort_stable_and_sequences (fun d : SeqDoc Nat => d.data)
    [⟨2, none⟩, ⟨1, none⟩] 0 0
  refine ⟨h.1, by decide, ?_⟩
  have hseq := h.2.2.2.2.2.2 0 (by decide)
  exact hseq

end Mkweb
